import Mathlib

/-!
Verification of the word-search generator core (grid model, direction-vector
resolution, single-word placement search with scoring, whole-puzzle generation
orchestration, and solution-overlay geometry), shallowly embedded from the
JavaScript/TypeScript sources.  Grid cells hold either the empty marker
(modelled as `none`) or a single letter (`some c`).  The ambient
`Math.random()` source is modelled, as the design notes prescribe, by
explicitly injected data: the shuffled direction list, the shuffled position
list and the tie-break index draw of each placement call, and the filler
letter chosen for each cell.
-/

namespace WordSearch

/-- A grid cell: `none` models the empty-string marker, `some c` a letter. -/
abbrev Cell := Option Char

/-- The letter grid, row-major, mirroring the JS two-dimensional arrays. -/
abbrev Grid := List (List Cell)

/-- A word, as its sequence of characters. -/
abbrev Word := List Char

/-- `createEmptyGrid(size)`: a `size`-by-`size` grid of empty cells. -/
def createEmptyGrid (size : Nat) : Grid :=
  List.replicate size (List.replicate size none)

/-- Bounds-checked read of `grid[row][col]`; out-of-range reads are absent. -/
def gridGet (g : Grid) (r c : Int) : Cell :=
  if 0 ≤ r ∧ 0 ≤ c then (g.getD r.toNat []).getD c.toNat none else none

/-- Bounds-checked write to `grid[row][col]`; out-of-range writes are no-ops. -/
def gridSet (g : Grid) (r c : Int) (v : Cell) : Grid :=
  if 0 ≤ r ∧ 0 ≤ c then g.set r.toNat ((g.getD r.toNat []).set c.toNat v) else g

/-- The grid is a well-formed `size`-by-`size` matrix. -/
def GridWF (size : Nat) (g : Grid) : Prop :=
  g.length = size ∧ ∀ row ∈ g, row.length = size

/-- The bounds test `row >= 0 && row < size && col >= 0 && col < size`
performed cell-by-cell inside `canPlaceWord`. -/
def inBounds (size : Nat) (r c : Int) : Bool :=
  decide (0 ≤ r) && decide (r < (size : Int)) && decide (0 ≤ c) && decide (c < (size : Int))

/-- `canPlaceWord(grid, word, startRow, startCol, [dRow, dCol])` from
`script.js`: every cell along the vector must be in bounds and either empty or
already holding the letter the word requires there. -/
def canPlaceWord (g : Grid) (w : Word) (startRow startCol dRow dCol : Int) : Bool :=
  (List.range w.length).all fun i =>
    let row := startRow + (i : Int) * dRow
    let col := startCol + (i : Int) * dCol
    inBounds g.length row col &&
      (gridGet g row col == none || gridGet g row col == some (w.getD i 'A'))

/-- The four direction checkboxes of the configuration. -/
structure DirectionOptions where
  horizontal : Bool
  vertical : Bool
  diagonal : Bool
  reverse : Bool
deriving DecidableEq

/-- `getDirectionVectors(directions)` from `script.js`: the list of unit step
vectors implied by the configuration, in push order. -/
def getDirectionVectors (d : DirectionOptions) : List (Int × Int) :=
  (if d.horizontal then
    [((0 : Int), (1 : Int))] ++ (if d.reverse then [(0, -1)] else []) else [])
  ++ (if d.vertical then
    [((1 : Int), (0 : Int))] ++ (if d.reverse then [(-1, 0)] else []) else [])
  ++ (if d.diagonal then
    [((1 : Int), (1 : Int)), (1, -1)] ++ (if d.reverse then [(-1, 1), (-1, -1)] else []) else [])

/-- `countOverlap(grid, word, ...)`: how many traversed cells already hold the
word's letter at that index. -/
def countOverlap (g : Grid) (w : Word) (startRow startCol dRow dCol : Int) : Nat :=
  ((List.range w.length).filter fun (i : Nat) =>
    gridGet g (startRow + (i : Int) * dRow) (startCol + (i : Int) * dCol)
      == some (w.getD i 'A')).length

/-- `countFilledCells(grid)`: number of non-empty cells. -/
def countFilledCells (g : Grid) : Nat :=
  (g.map fun row => (row.filter fun cell => cell != none).length).sum

/-- The nested `dr`/`dc` loops of `calculateSpacingScore` range over these
nine offsets. -/
def neighborOffsets : List (Int × Int) :=
  [(-1, -1), (-1, 0), (-1, 1), (0, -1), (0, 0), (0, 1), (1, -1), (1, 0), (1, 1)]

/-- `calculateSpacingScore(grid, word, startRow, startCol, direction)` from
`script.js`: one point is subtracted for every in-bounds, already-filled
neighbor of every cell the word would occupy, skipping only the occupied cell
itself (`checkRow !== row || checkCol !== col`). -/
def calculateSpacingScore (g : Grid) (w : Word) (startRow startCol dRow dCol : Int) : Int :=
  -(((List.range w.length).map fun (i : Nat) =>
      let row := startRow + (i : Int) * dRow
      let col := startCol + (i : Int) * dCol
      ((neighborOffsets.filter fun off =>
          let checkRow := row + off.1
          let checkCol := col + off.2
          inBounds g.length checkRow checkCol &&
            gridGet g checkRow checkCol != none &&
            (checkRow != row || checkCol != col)).length : Int)).sum)

/-- The first `n` writes of `placeWordAt` (writing letters 0..n-1). -/
def placeWordAtN (g : Grid) (w : Word) (startRow startCol dRow dCol : Int) (n : Nat) : Grid :=
  (List.range n).foldl
    (fun acc (i : Nat) =>
      gridSet acc (startRow + (i : Int) * dRow) (startCol + (i : Int) * dCol)
        (some (w.getD i 'A'))) g

/-- `placeWordAt(grid, word, ...)` on one grid: write every letter of the word
along the vector.  The `script.js` version performs these writes on the
display and the solution grid simultaneously; this is modelled by applying
`placeWordAt` to each grid. -/
def placeWordAt (g : Grid) (w : Word) (startRow startCol dRow dCol : Int) : Grid :=
  placeWordAtN g w startRow startCol dRow dCol w.length

/-- One row of `fillRemainingCells`: empty cells at column `j`, `j+1`, ... are
replaced by the injected random letter for that coordinate. -/
def fillCellsRow (f : Nat → Char) : Nat → List Cell → List Cell
  | _, [] => []
  | j, none :: rest => some (f j) :: fillCellsRow f (j + 1) rest
  | j, some c :: rest => some c :: fillCellsRow f (j + 1) rest

/-- Rows `i`, `i+1`, ... of `fillRemainingCells`. -/
def fillCells (rnd : Nat → Nat → Char) : Nat → Grid → Grid
  | _, [] => []
  | i, row :: rest => fillCellsRow (rnd i) 0 row :: fillCells rnd (i + 1) rest

/-- `fillRemainingCells(grid)`: every empty cell receives a (randomly drawn)
letter; the draw is injected as `rnd row col`. -/
def fillRemainingCells (g : Grid) (rnd : Nat → Nat → Char) : Grid :=
  fillCells rnd 0 g

/-- A placement candidate `[row, col, dRow, dCol]` as pushed into `best`. -/
abbrev Cand := Int × Int × Int × Int

/-- Start row of a candidate. -/
def Cand.row (c : Cand) : Int := c.1

/-- Start column of a candidate. -/
def Cand.col (c : Cand) : Int := c.2.1

/-- Row step of a candidate. -/
def Cand.dr (c : Cand) : Int := c.2.2.1

/-- Column step of a candidate. -/
def Cand.dc (c : Cand) : Int := c.2.2.2

/-- Legality of a candidate for a word on the current grid. -/
def canPlace (g : Grid) (w : Word) (c : Cand) : Bool :=
  canPlaceWord g w c.row c.col c.dr c.dc

/-- Twice the score `placeWordSmart` computes for a legal candidate: a
density-dependent combination of the spacing score and the overlap count
(`spacing * 2 + overlap`, `spacing + overlap * 1.5`, or
`overlap * 2 + spacing * 0.5` in the source).  Every source score is an
integer multiple of one half, so doubling yields integers while preserving
every comparison between scores and against the `-1` sentinel (doubled to
`-2`).  The density tests `filledCells / totalCells < 0.3` and `< 0.6` are
written cross-multiplied, which is exact for non-empty grids and agrees with
the source's NaN comparison semantics when the grid is empty. -/
def candScore (g : Grid) (w : Word) (c : Cand) : Int :=
  let overlap : Int := (countOverlap g w c.row c.col c.dr c.dc : Int)
  let spacing : Int := calculateSpacingScore g w c.row c.col c.dr c.dc
  let filled := countFilledCells g
  let total := g.length * g.length
  if 10 * filled < 3 * total then (spacing * 2 + overlap) * 2
  else if 10 * filled < 6 * total then spacing * 2 + overlap * 3
  else overlap * 4 + spacing

/-- The candidate enumeration order of `placeWordSmart`: for each (shuffled)
direction, every (shuffled) start position. -/
def candidatePairs (dirs positions : List (Int × Int)) : List Cand :=
  (dirs.map fun d => positions.map fun p => ((p.1, p.2, d.1, d.2) : Cand)).flatten

/-- One step of the running `best`/`bestScore` accumulation inside
`placeWordSmart`: a strictly better score restarts the list, an equal score
appends, anything else is dropped. -/
def stepBest (g : Grid) (w : Word) (acc : List Cand × Int) (c : Cand) : List Cand × Int :=
  if canPlace g w c then
    let score := candScore g w c
    if acc.2 < score then ([c], score)
    else if score = acc.2 then (acc.1 ++ [c], acc.2)
    else acc
  else acc

/-- The full `best`/`bestScore` accumulation of `placeWordSmart`, starting
from the sentinel `bestScore = -1` (doubled to `-2` in the doubled-score
representation). -/
def runBest (g : Grid) (w : Word) (cands : List Cand) : List Cand × Int :=
  cands.foldl (stepBest g w) ([], -2)

/-- The final value of the running `bestScore` after scanning `cands`,
starting from `m`: the maximum of `m` and the scores of the legal candidates. -/
def bestScoreFrom (g : Grid) (w : Word) (m : Int) : List Cand → Int
  | [] => m
  | c :: cs => bestScoreFrom g w (if canPlace g w c then max m (candScore g w c) else m) cs

/-- The randomness consumed by one `placeWordSmart` call: the shuffled copy of
the direction vectors, the shuffled position list, and the random tie-break
draw (`Math.floor(Math.random() * best.length)` is modelled as
`pick % best.length`). -/
structure Rand where
  dirs : List (Int × Int)
  pos : List (Int × Int)
  pick : Nat

/-- The permanent record of a placement, as returned by `placeWordSmart`. -/
structure PlacedWordInfo where
  word : Word
  startRow : Int
  startCol : Int
  dRow : Int
  dCol : Int
  length : Nat
deriving DecidableEq

/-- The `PlacedWordInfo` object literal built for a committed candidate. -/
def mkInfo (w : Word) (c : Cand) : PlacedWordInfo :=
  ⟨w, c.row, c.col, c.dr, c.dc, w.length⟩

/-- `placeWordSmart(grid, solution, word, directionVectors)` from `script.js`.
Enumerates the shuffled candidates, accumulates the best-scoring ones,
commits a random one of them to both grids, and returns its record; with no
recorded candidate it returns `null` and leaves both grids untouched. -/
def placeWordSmart (g s : Grid) (w : Word) (r : Rand) :
    Option PlacedWordInfo × Grid × Grid :=
  let best := (runBest g w (candidatePairs r.dirs r.pos)).1
  if 0 < best.length then
    let c := best.getD (r.pick % best.length) ((0, 0, 0, 0) : Cand)
    (some (mkInfo w c),
     placeWordAt g w c.row c.col c.dr c.dc,
     placeWordAt s w c.row c.col c.dr c.dc)
  else (none, g, s)

/-- The inner per-word retry loop of `createWordSearch`: up to
`attemptsPerWord` calls of `placeWordSmart` (one injected `Rand` per call),
stopping at the first success. -/
def placeWordLoop (g s : Grid) (w : Word) : List Rand → Option PlacedWordInfo × Grid × Grid
  | [] => (none, g, s)
  | r :: rs =>
    match placeWordSmart g s w r with
    | (some info, g1, s1) => (some info, g1, s1)
    | (none, g1, s1) => placeWordLoop g1 s1 w rs

/-- The outcome of one generation attempt (`createWordSearch`). -/
structure WSResult where
  grid : Grid
  solution : Grid
  placedWords : List Word
  failedWords : List Word
  placedWordInfos : List PlacedWordInfo
deriving DecidableEq

/-- The per-word loop of `createWordSearch` over the sorted word list,
accumulating placed words, failed words and placement records. -/
def placeWords (g s : Grid) (rands : Nat → List Rand) (idx : Nat) : List Word → WSResult
  | [] => ⟨g, s, [], [], []⟩
  | w :: ws =>
    match placeWordLoop g s w (rands idx) with
    | (some info, g1, s1) =>
      let rest := placeWords g1 s1 rands (idx + 1) ws
      ⟨rest.grid, rest.solution, w :: rest.placedWords, rest.failedWords,
        info :: rest.placedWordInfos⟩
    | (none, g1, s1) =>
      let rest := placeWords g1 s1 rands (idx + 1) ws
      ⟨rest.grid, rest.solution, rest.placedWords, w :: rest.failedWords,
        rest.placedWordInfos⟩

/-- `[...words].sort((a, b) => b.length - a.length)`: the longest-first order
in which one generation attempt tries the words (JS `sort` is any
comparator-respecting sort; it is modelled by insertion sort under the same
comparator). -/
def wordsByLength (words : List Word) : List Word :=
  List.insertionSort (fun a b => b.length ≤ a.length) words

/-- The randomness consumed by one generation attempt: the `Rand` list of
each word's inner retry loop (index = position in the sorted word list) and
the filler-letter draw of `fillRemainingCells`. -/
structure AttemptRand where
  wordRands : Nat → List Rand
  fillRnd : Nat → Nat → Char

/-- `createWordSearch(words, size, directions, attemptsPerWord)` from
`script.js`: fresh display and solution grids, words attempted longest first,
then the display grid's remaining cells are filled with random letters. -/
def createWordSearch (words : List Word) (size : Nat) (ar : AttemptRand) : WSResult :=
  let res := placeWords (createEmptyGrid size) (createEmptyGrid size) ar.wordRands 0
    (wordsByLength words)
  ⟨fillRemainingCells res.grid ar.fillRnd, res.solution, res.placedWords, res.failedWords,
    res.placedWordInfos⟩

/-- The structured result of `createPuzzle`: success with grids and metadata,
or a hard failure with an error message. -/
inductive GenerationResult where
  | success (puzzle solution : Grid) (placedWords failedWords : List Word)
      (placedWordInfos : List PlacedWordInfo) : GenerationResult
  | failure (error : String) : GenerationResult
deriving DecidableEq

/-- The outer best-of retry loop of `createPuzzle`: run up to ten generation
attempts, retain the one placing strictly more words than any before it, stop
early when an attempt fails no word. -/
def bestLoop (words : List Word) (size : Nat) (ar : Nat → AttemptRand) :
    Nat → Nat → Int × Option WSResult → Int × Option WSResult
  | 0, _, acc => acc
  | n + 1, idx, acc =>
    let res := createWordSearch words size (ar idx)
    let acc1 :=
      if acc.1 < (res.placedWords.length : Int) then ((res.placedWords.length : Int), some res)
      else acc
    if res.failedWords.length = 0 then acc1
    else bestLoop words size ar n (idx + 1) acc1

/-- `createPuzzle(words, size, directions)` from `script.js`: the best of up
to ten attempts; success whenever a best attempt was retained, otherwise the
hard-failure message. -/
def createPuzzle (words : List Word) (size : Nat) (ar : Nat → AttemptRand) :
    GenerationResult :=
  match (bestLoop words size ar 10 0 (-1, none)).2 with
  | some res =>
    .success res.grid res.solution res.placedWords res.failedWords res.placedWordInfos
  | none =>
    .failure "Unable to place any words. Try reducing the number of words, increasing the puzzle size, or adding more direction options."

/-- The unshuffled position enumeration of `placeWordSmart`: all grid cells in
row-major order. -/
def allPositions (size : Nat) : List (Int × Int) :=
  ((List.range size).map fun row =>
    (List.range size).map fun col => (((row : Int), (col : Int)) : Int × Int)).flatten

/-- A `Rand` is a faithful model of one call's `Math.random()` usage when its
two lists are permutations of what the source shuffles: the resolved
direction vectors and the row-major position list. -/
def validRand (size : Nat) (dirVecs : List (Int × Int)) (r : Rand) : Prop :=
  r.dirs.Perm dirVecs ∧ r.pos.Perm (allPositions size)

/-- The invariant claimed for every returned `PlacedWordInfo`: its recorded
length is the word's length, and each of its `length` traversal steps stays
inside the `size`-by-`size` grid with both the display grid `p` and the
solution grid `s` holding exactly the word's letter there. -/
def infoOK (size : Nat) (p s : Grid) (info : PlacedWordInfo) : Prop :=
  info.length = info.word.length ∧
  ∀ i < info.length,
    0 ≤ info.startRow + (i : Int) * info.dRow ∧
    info.startRow + (i : Int) * info.dRow < (size : Int) ∧
    0 ≤ info.startCol + (i : Int) * info.dCol ∧
    info.startCol + (i : Int) * info.dCol < (size : Int) ∧
    gridGet p (info.startRow + (i : Int) * info.dRow) (info.startCol + (i : Int) * info.dCol)
      = some (info.word.getD i 'A') ∧
    gridGet s (info.startRow + (i : Int) * info.dRow) (info.startCol + (i : Int) * info.dCol)
      = some (info.word.getD i 'A')

/-- Following the spec's words for the spacing penalty: one penalty for each
already-filled in-bounds neighbor (8-neighborhood) of each cell the word
would occupy, "except cells that are part of the word itself" — the whole
footprint of the word is excluded, not just the occupied center cell.
Written for comparison with `calculateSpacingScore`. -/
def spacingScoreSpec (g : Grid) (w : Word) (startRow startCol dRow dCol : Int) : Int :=
  -(((List.range w.length).map fun (i : Nat) =>
      let row := startRow + (i : Int) * dRow
      let col := startCol + (i : Int) * dCol
      ((neighborOffsets.filter fun off =>
          let checkRow := row + off.1
          let checkCol := col + off.2
          inBounds g.length checkRow checkCol &&
            gridGet g checkRow checkCol != none &&
            !((List.range w.length).any fun (j : Nat) =>
              checkRow == startRow + (j : Int) * dRow &&
                checkCol == startCol + (j : Int) * dCol)).length : Int)).sum)

/-- The count the source's spacing score actually computes: already-filled
in-bounds cells in the 8-neighborhood of each occupied cell, with only the
occupied cell itself excluded from its own neighborhood. -/
def crowdedNeighborCount (g : Grid) (w : Word) (startRow startCol dRow dCol : Int) : Nat :=
  ((List.range w.length).map fun (i : Nat) =>
    let row := startRow + (i : Int) * dRow
    let col := startCol + (i : Int) * dCol
    ((neighborOffsets.filter fun off =>
        inBounds g.length (row + off.1) (col + off.2) &&
          gridGet g (row + off.1) (col + off.2) != none &&
          !(off == ((0 : Int), (0 : Int)))).length)).sum

/-- A deterministic stand-in for one call's randomness: unshuffled direction
and position lists, tie-break draw 0. -/
def idRand (size : Nat) (dirVecs : List (Int × Int)) : Rand :=
  ⟨dirVecs, allPositions size, 0⟩

/-- A deterministic stand-in for one attempt's randomness: `n` identical
inner retries per word (the source uses `attemptsPerWord = 1000`), filler
letter always `X`. -/
def constAttemptN (n size : Nat) (dirVecs : List (Int × Int)) : AttemptRand :=
  ⟨fun _ => List.replicate n (idRand size dirVecs), fun _ _ => 'X'⟩

/-- JS `Math.atan2(y, x)`, over the reals. -/
noncomputable def atan2 (y x : ℝ) : ℝ :=
  if 0 < x then Real.arctan (y / x)
  else if x < 0 then
    (if 0 ≤ y then Real.arctan (y / x) + Real.pi else Real.arctan (y / x) - Real.pi)
  else if 0 < y then Real.pi / 2
  else if y < 0 then -(Real.pi / 2)
  else 0

/-- The capsule record produced for one placed word by
`getCapsuleOverlays` in `solutionOverlay.ts`. -/
structure CapsuleOverlay where
  startRow : Int
  startCol : Int
  endRow : Int
  endCol : Int
  cx : ℝ
  cy : ℝ
  angle : ℝ
  capsuleLength : ℝ
  capsuleWidth : ℝ

/-- One entry of `getCapsuleOverlays(placedWordInfos, cellSize)` from
`solutionOverlay.ts` (`0.7` is written as the exact rational `7 / 10`). -/
noncomputable def capsuleOverlay (info : PlacedWordInfo) (cellSize : ℝ) : CapsuleOverlay :=
  let endRow := info.startRow + ((info.length : Int) - 1) * info.dRow
  let endCol := info.startCol + ((info.length : Int) - 1) * info.dCol
  let startX := (info.startCol : ℝ) * cellSize + cellSize / 2
  let startY := (info.startRow : ℝ) * cellSize + cellSize / 2
  let endX := (endCol : ℝ) * cellSize + cellSize / 2
  let endY := (endRow : ℝ) * cellSize + cellSize / 2
  let dx := endX - startX
  let dy := endY - startY
  let dist := Real.sqrt (dx * dx + dy * dy)
  let angle := atan2 dy dx * 180 / Real.pi
  let extension := cellSize * (7 / 10)
  { startRow := info.startRow, startCol := info.startCol, endRow := endRow, endCol := endCol,
    cx := (startX + endX) / 2, cy := (startY + endY) / 2, angle := angle,
    capsuleLength := dist + extension * 2, capsuleWidth := cellSize * (7 / 10) }

/-- `getCapsuleOverlays` maps the geometry over every placed word. -/
noncomputable def getCapsuleOverlays (infos : List PlacedWordInfo) (cellSize : ℝ) :
    List CapsuleOverlay :=
  infos.map fun info => capsuleOverlay info cellSize

/-- Pixel center of the cell at `(row, col)`: `col * cellSize + cellSize / 2`
horizontally, `row * cellSize + cellSize / 2` vertically. -/
noncomputable def cellCenter (row col : Int) (cellSize : ℝ) : ℝ × ℝ :=
  ((col : ℝ) * cellSize + cellSize / 2, (row : ℝ) * cellSize + cellSize / 2)

/-- Euclidean distance between two points of the plane. -/
noncomputable def euclidDist (p q : ℝ × ℝ) : ℝ :=
  Real.sqrt ((q.1 - p.1) * (q.1 - p.1) + (q.2 - p.2) * (q.2 - p.2))

/-- What one placement step (or retry loop) guarantees: well-formed output
grids, preservation of every already-established `infoOK`, and `infoOK` for
the newly returned record. -/
def StepOK (size : Nat) (g s g1 s1 : Grid) (res : Option PlacedWordInfo) : Prop :=
  GridWF size g1 ∧ GridWF size s1 ∧
  (∀ info, infoOK size g s info → infoOK size g1 s1 info) ∧
  (∀ info, res = some info → infoOK size g1 s1 info)

/-- What the whole per-word loop guarantees for a `WSResult` built from start
grids `g`, `s`. -/
def WordsOK (size : Nat) (g s : Grid) (res : WSResult) : Prop :=
  GridWF size res.grid ∧ GridWF size res.solution ∧
  (∀ info, infoOK size g s info → infoOK size res.grid res.solution info) ∧
  (∀ info ∈ res.placedWordInfos, infoOK size res.grid res.solution info)

end WordSearch

namespace WordSearch

/-- Characterization of `canPlaceWord`, used by claim C3. -/
theorem canPlaceWord_iff (g : Grid) (w : Word) (startRow startCol dRow dCol : Int) :
    canPlaceWord g w startRow startCol dRow dCol = true ↔
      ∀ i < w.length,
        (0 ≤ startRow + (i : Int) * dRow ∧ startRow + (i : Int) * dRow < (g.length : Int) ∧
         0 ≤ startCol + (i : Int) * dCol ∧ startCol + (i : Int) * dCol < (g.length : Int)) ∧
        (gridGet g (startRow + (i : Int) * dRow) (startCol + (i : Int) * dCol) = none ∨
         gridGet g (startRow + (i : Int) * dRow) (startCol + (i : Int) * dCol) =
           some (w.getD i 'A')) := by
  simp only [canPlaceWord, List.all_eq_true, List.mem_range, inBounds,
    Bool.and_eq_true, Bool.or_eq_true, beq_iff_eq, decide_eq_true_eq]
  constructor
  · intro h i hi
    obtain ⟨⟨⟨⟨h1, h2⟩, h3⟩, h4⟩, h5⟩ := h i hi
    exact ⟨⟨h1, h2, h3, h4⟩, h5⟩
  · intro h i hi
    obtain ⟨⟨h1, h2, h3, h4⟩, h5⟩ := h i hi
    exact ⟨⟨⟨⟨h1, h2⟩, h3⟩, h4⟩, h5⟩

/-- C3: `canPlaceWord` returns true iff every cell of the word's traversal is
in bounds and is either empty or already holds the word's letter at that
index (overlap only when letter-identical). -/
theorem C3_canPlaceWord_correct (g : Grid) (w : Word) (startRow startCol dRow dCol : Int) :
    canPlaceWord g w startRow startCol dRow dCol = true ↔
      ∀ i < w.length,
        (0 ≤ startRow + (i : Int) * dRow ∧ startRow + (i : Int) * dRow < (g.length : Int) ∧
         0 ≤ startCol + (i : Int) * dCol ∧ startCol + (i : Int) * dCol < (g.length : Int)) ∧
        (gridGet g (startRow + (i : Int) * dRow) (startCol + (i : Int) * dCol) = none ∨
         gridGet g (startRow + (i : Int) * dRow) (startCol + (i : Int) * dCol) =
           some (w.getD i 'A')) :=
  canPlaceWord_iff g w startRow startCol dRow dCol

/-- C4: the direction-vector resolver returns exactly the set prescribed by
the configuration flags, and the empty set when no axis flag is set. -/
theorem C4_direction_vectors (d : DirectionOptions) :
    (∀ v : Int × Int,
      v ∈ getDirectionVectors d ↔
        ((d.horizontal = true ∧ v = (0, 1)) ∨
         (d.horizontal = true ∧ d.reverse = true ∧ v = (0, -1)) ∨
         (d.vertical = true ∧ v = (1, 0)) ∨
         (d.vertical = true ∧ d.reverse = true ∧ v = (-1, 0)) ∨
         (d.diagonal = true ∧ v = (1, 1)) ∨
         (d.diagonal = true ∧ v = (1, -1)) ∨
         (d.diagonal = true ∧ d.reverse = true ∧ v = (-1, 1)) ∨
         (d.diagonal = true ∧ d.reverse = true ∧ v = (-1, -1)))) ∧
    (d.horizontal = false → d.vertical = false → d.diagonal = false →
      getDirectionVectors d = []) := by
  obtain ⟨h, v, dg, r⟩ := d
  cases h <;> cases v <;> cases dg <;> cases r <;> simp [getDirectionVectors]

theorem gridGet_neg (g : Grid) (r c : Int) (h : ¬(0 ≤ r ∧ 0 ≤ c)) :
    gridGet g r c = none := by
  simp [gridGet, h]

theorem gridGet_some_bounds {g : Grid} {r c : Int} {x : Char}
    (h : gridGet g r c = some x) :
    0 ≤ r ∧ 0 ≤ c ∧ r.toNat < g.length ∧ c.toNat < (g.getD r.toNat []).length := by
  by_cases hrc : 0 ≤ r ∧ 0 ≤ c
  · rw [gridGet, if_pos hrc] at h
    simp only [List.getD_eq_getElem?_getD] at h ⊢
    refine ⟨hrc.1, hrc.2, ?_, ?_⟩
    · by_contra hlen
      push_neg at hlen
      rw [List.getElem?_eq_none hlen] at h
      simp at h
    · by_contra hlen
      push_neg at hlen
      rw [List.getElem?_eq_none (by simpa using hlen)] at h
      simp at h
  · rw [gridGet_neg g r c hrc] at h
    exact absurd h (by simp)

theorem gridGet_set_self {g : Grid} {r c : Int} (v : Cell)
    (hr : 0 ≤ r) (hc : 0 ≤ c) (hrl : r.toNat < g.length)
    (hcl : c.toNat < (g.getD r.toNat []).length) :
    gridGet (gridSet g r c v) r c = v := by
  rw [gridSet, if_pos ⟨hr, hc⟩, gridGet, if_pos ⟨hr, hc⟩]
  simp only [List.getD_eq_getElem?_getD] at hcl ⊢
  rw [List.getElem?_set_self hrl, Option.getD_some, List.getElem?_set_self (by simpa using hcl)]
  simp

theorem gridGet_set_ne {g : Grid} {r c r' c' : Int} (v : Cell)
    (h : ¬(r' = r ∧ c' = c)) :
    gridGet (gridSet g r c v) r' c' = gridGet g r' c' := by
  by_cases hrc : 0 ≤ r ∧ 0 ≤ c
  swap
  · rw [gridSet, if_neg hrc]
  by_cases hrc' : 0 ≤ r' ∧ 0 ≤ c'
  swap
  · rw [gridGet_neg _ _ _ hrc', gridGet_neg _ _ _ hrc']
  rw [gridSet, if_pos hrc, gridGet, if_pos hrc', gridGet, if_pos hrc']
  simp only [List.getD_eq_getElem?_getD]
  by_cases hr : r'.toNat = r.toNat
  · have hreq : r' = r := by
      rw [← Int.toNat_of_nonneg hrc'.1, ← Int.toNat_of_nonneg hrc.1, hr]
    have hcne : c' ≠ c := fun hceq => h ⟨hreq, hceq⟩
    have hcnat : c'.toNat ≠ c.toNat := by
      intro hn
      exact hcne (by rw [← Int.toNat_of_nonneg hrc'.2, ← Int.toNat_of_nonneg hrc.2, hn])
    rw [hr]
    by_cases hrl : r.toNat < g.length
    · rw [List.getElem?_set_self hrl, Option.getD_some,
        List.getElem?_set_ne (fun hn => hcnat hn.symm)]
    · rw [List.set_eq_of_length_le (Nat.le_of_not_lt hrl)]
  · rw [List.getElem?_set_ne (fun hn => hr hn.symm)]

theorem GridWF.set {size : Nat} {g : Grid} (hwf : GridWF size g) (r c : Int) (v : Cell) :
    GridWF size (gridSet g r c v) := by
  rw [gridSet]
  split
  · by_cases hrl : r.toNat < g.length
    · refine ⟨by simpa using hwf.1, ?_⟩
      intro row hrow
      rcases List.mem_or_eq_of_mem_set hrow with h | h
      · exact hwf.2 row h
      · subst h
        rw [List.length_set, List.getD_eq_getElem?_getD, List.getElem?_eq_getElem hrl,
          Option.getD_some]
        exact hwf.2 _ (List.getElem_mem hrl)
    · rw [List.set_eq_of_length_le (Nat.le_of_not_lt hrl)]
      exact hwf
  · exact hwf

theorem GridWF_createEmpty (size : Nat) : GridWF size (createEmptyGrid size) := by
  constructor
  · simp [createEmptyGrid]
  · intro row hrow
    rw [createEmptyGrid] at hrow
    rw [List.eq_of_mem_replicate hrow]
    simp

theorem gridGet_createEmpty (size : Nat) (r c : Int) :
    gridGet (createEmptyGrid size) r c = none := by
  rw [gridGet]
  split
  · rcases Nat.lt_or_ge r.toNat size with h | h
    · rcases Nat.lt_or_ge c.toNat size with h2 | h2 <;>
        simp [createEmptyGrid, List.getD_eq_getElem?_getD, List.getElem?_replicate, h, h2,
          Nat.not_lt.mpr]
    · simp [createEmptyGrid, List.getD_eq_getElem?_getD, List.getElem?_replicate,
        Nat.not_lt.mpr h]
  · rfl

theorem cell_inj {dr dc : Int} (hdir : ¬(dr = 0 ∧ dc = 0)) {r0 c0 : Int} {i j : Nat}
    (hr : r0 + (i : Int) * dr = r0 + (j : Int) * dr)
    (hc : c0 + (i : Int) * dc = c0 + (j : Int) * dc) : i = j := by
  rcases not_and_or.mp hdir with h | h
  · have : (i : Int) * dr = (j : Int) * dr := by omega
    have : (i : Int) = (j : Int) := mul_right_cancel₀ h this
    exact_mod_cast this
  · have : (i : Int) * dc = (j : Int) * dc := by omega
    have : (i : Int) = (j : Int) := mul_right_cancel₀ h this
    exact_mod_cast this

theorem placeWordAtN_succ (g : Grid) (w : Word) (r0 c0 dr dc : Int) (n : Nat) :
    placeWordAtN g w r0 c0 dr dc (n + 1) =
      gridSet (placeWordAtN g w r0 c0 dr dc n) (r0 + (n : Int) * dr) (c0 + (n : Int) * dc)
        (some (w.getD n 'A')) := by
  rw [placeWordAtN, List.range_succ, List.foldl_append, List.foldl_cons, List.foldl_nil]
  rfl

theorem gridGet_placeWordAtN_off {g : Grid} {w : Word} {r0 c0 dr dc : Int} {r c : Int}
    {n : Nat} (h : ∀ i < n, ¬(r = r0 + (i : Int) * dr ∧ c = c0 + (i : Int) * dc)) :
    gridGet (placeWordAtN g w r0 c0 dr dc n) r c = gridGet g r c := by
  induction n with
  | zero => rfl
  | succ m ih =>
    rw [placeWordAtN_succ, gridGet_set_ne _ (h m (Nat.lt_succ_self m))]
    exact ih fun i hi => h i (Nat.lt_succ_of_lt hi)

theorem GridWF.placeWordAtN {size : Nat} {g : Grid} (hwf : GridWF size g)
    (w : Word) (r0 c0 dr dc : Int) (n : Nat) :
    GridWF size (placeWordAtN g w r0 c0 dr dc n) := by
  induction n with
  | zero => exact hwf
  | succ m ih => rw [placeWordAtN_succ]; exact ih.set _ _ _

theorem gridGet_WF_in_bounds {size : Nat} {g : Grid} (hwf : GridWF size g)
    {r c : Int} (h : inBounds size r c = true) :
    0 ≤ r ∧ 0 ≤ c ∧ r.toNat < g.length ∧ c.toNat < (g.getD r.toNat []).length := by
  simp only [inBounds, Bool.and_eq_true, decide_eq_true_eq] at h
  obtain ⟨⟨⟨h1, h2⟩, h3⟩, h4⟩ := h
  have hrl : r.toNat < g.length := by
    rw [hwf.1]
    exact (Int.toNat_lt h1).mpr h2
  refine ⟨h1, h3, hrl, ?_⟩
  have hmem : g.getD r.toNat [] ∈ g := by
    rw [List.getD_eq_getElem?_getD, List.getElem?_eq_getElem hrl, Option.getD_some]
    exact List.getElem_mem hrl
  rw [hwf.2 _ hmem]
  exact (Int.toNat_lt h3).mpr h4

theorem gridGet_placeWordAtN_on {size : Nat} {g : Grid} (hwf : GridWF size g)
    {w : Word} {r0 c0 dr dc : Int} (hdir : ¬(dr = 0 ∧ dc = 0)) {n : Nat}
    (hbnd : ∀ i < n, inBounds size (r0 + (i : Int) * dr) (c0 + (i : Int) * dc) = true) :
    ∀ i < n, gridGet (placeWordAtN g w r0 c0 dr dc n)
      (r0 + (i : Int) * dr) (c0 + (i : Int) * dc) = some (w.getD i 'A') := by
  induction n with
  | zero => intro i hi; omega
  | succ m ih =>
    intro i hi
    rw [placeWordAtN_succ]
    rcases Nat.lt_succ_iff_lt_or_eq.mp hi with hlt | heq
    · rw [gridGet_set_ne]
      · exact ih (fun j hj => hbnd j (Nat.lt_succ_of_lt hj)) i hlt
      · rintro ⟨h1, h2⟩
        exact absurd (cell_inj hdir h1 h2) (Nat.ne_of_lt hlt)
    · subst heq
      have hwfm := hwf.placeWordAtN w r0 c0 dr dc i
      obtain ⟨b1, b2, b3, b4⟩ := gridGet_WF_in_bounds hwfm (hbnd i (Nat.lt_succ_self i))
      exact gridGet_set_self _ b1 b2 b3 b4

theorem gridGet_placeWordAtN_preserve {g : Grid} {w : Word} {r0 c0 dr dc r c : Int}
    {x : Char} {n : Nat}
    (hleg : ∀ i < n, r = r0 + (i : Int) * dr → c = c0 + (i : Int) * dc → w.getD i 'A' = x)
    (h : gridGet g r c = some x) :
    gridGet (placeWordAtN g w r0 c0 dr dc n) r c = some x := by
  induction n with
  | zero => exact h
  | succ m ih =>
    have hm := ih fun i hi => hleg i (Nat.lt_succ_of_lt hi)
    rw [placeWordAtN_succ]
    by_cases hcell : r = r0 + (m : Int) * dr ∧ c = c0 + (m : Int) * dc
    · obtain ⟨b1, b2, b3, b4⟩ := gridGet_some_bounds hm
      rw [← hcell.1, ← hcell.2, gridGet_set_self _ b1 b2 b3 b4,
        hleg m (Nat.lt_succ_self m) hcell.1 hcell.2]
    · rw [gridGet_set_ne _ hcell]
      exact hm

theorem fillCellsRow_getD_some {f : Nat → Char} {x : Char} :
    ∀ (row : List Cell) (j k : Nat), row.getD k none = some x →
      (fillCellsRow f j row).getD k none = some x := by
  intro row
  induction row with
  | nil => intro j k h; simp at h
  | cons cell rest ih =>
    intro j k h
    match k with
    | 0 =>
      match cell, h with
      | some y, h => simpa [fillCellsRow] using h
    | k + 1 =>
      have := ih (j + 1) k (by simpa using h)
      match cell with
      | none => simpa [fillCellsRow] using this
      | some y => simpa [fillCellsRow] using this

theorem fillCells_getD_getD_some {rnd : Nat → Nat → Char} {x : Char} :
    ∀ (g : Grid) (i k ct : Nat), (g.getD k []).getD ct none = some x →
      ((fillCells rnd i g).getD k []).getD ct none = some x := by
  intro g
  induction g with
  | nil => intro i k ct h; simp at h
  | cons row rest ih =>
    intro i k ct h
    match k with
    | 0 => exact fillCellsRow_getD_some row 0 ct (by simpa [fillCells] using h)
    | k + 1 =>
      have := ih (i + 1) k ct (by simpa using h)
      simpa [fillCells] using this

theorem gridGet_fillRemainingCells_some {g : Grid} {rnd : Nat → Nat → Char}
    {r c : Int} {x : Char} (h : gridGet g r c = some x) :
    gridGet (fillRemainingCells g rnd) r c = some x := by
  obtain ⟨h1, h2, _, _⟩ := gridGet_some_bounds h
  rw [gridGet, if_pos ⟨h1, h2⟩] at h ⊢
  exact fillCells_getD_getD_some g 0 r.toNat c.toNat h

theorem inBounds_iff {size : Nat} {r c : Int} :
    inBounds size r c = true ↔
      0 ≤ r ∧ r < (size : Int) ∧ 0 ≤ c ∧ c < (size : Int) := by
  simp only [inBounds, Bool.and_eq_true, decide_eq_true_eq]
  tauto

theorem canPlaceWord_inBounds {g : Grid} {w : Word} {r0 c0 dr dc : Int}
    (h : canPlaceWord g w r0 c0 dr dc = true) :
    ∀ i < w.length, inBounds g.length (r0 + (i : Int) * dr) (c0 + (i : Int) * dc) = true := by
  intro i hi
  obtain ⟨⟨b1, b2, b3, b4⟩, _⟩ := (canPlaceWord_iff g w r0 c0 dr dc).mp h i hi
  exact inBounds_iff.mpr ⟨b1, b2, b3, b4⟩

theorem canPlaceWord_content {g : Grid} {w : Word} {r0 c0 dr dc : Int}
    (h : canPlaceWord g w r0 c0 dr dc = true) :
    ∀ i < w.length,
      gridGet g (r0 + (i : Int) * dr) (c0 + (i : Int) * dc) = none ∨
      gridGet g (r0 + (i : Int) * dr) (c0 + (i : Int) * dc) = some (w.getD i 'A') := by
  intro i hi
  exact ((canPlaceWord_iff g w r0 c0 dr dc).mp h i hi).2

theorem le_bestScoreFrom (g : Grid) (w : Word) :
    ∀ (cs : List Cand) (m : Int), m ≤ bestScoreFrom g w m cs := by
  intro cs
  induction cs with
  | nil => intro m; exact le_refl m
  | cons c cs ih =>
    intro m
    rw [bestScoreFrom]
    split
    · exact le_trans (le_max_left _ _) (ih _)
    · exact ih m

theorem score_le_bestScoreFrom (g : Grid) (w : Word) :
    ∀ (cs : List Cand) (m : Int) (c : Cand), c ∈ cs → canPlace g w c = true →
      candScore g w c ≤ bestScoreFrom g w m cs := by
  intro cs
  induction cs with
  | nil => intro m c h; simp at h
  | cons c0 cs ih =>
    intro m c hmem hleg
    rw [bestScoreFrom]
    rcases List.mem_cons.mp hmem with h | h
    · subst h
      rw [if_pos hleg]
      exact le_trans (le_max_right _ _) (le_bestScoreFrom g w cs _)
    · exact ih _ c h hleg

theorem bestScoreFrom_attained (g : Grid) (w : Word) :
    ∀ (cs : List Cand) (m : Int), bestScoreFrom g w m cs = m ∨
      ∃ c ∈ cs, canPlace g w c = true ∧ candScore g w c = bestScoreFrom g w m cs := by
  intro cs
  induction cs with
  | nil => intro m; exact Or.inl rfl
  | cons c0 cs ih =>
    intro m
    rw [bestScoreFrom]
    by_cases hleg : canPlace g w c0 = true
    · rw [if_pos hleg]
      rcases ih (max m (candScore g w c0)) with h | ⟨c, hc, hl, hs⟩
      · rw [h]
        rcases max_choice m (candScore g w c0) with hm | hm
        · rw [hm]
          exact Or.inl rfl
        · rw [hm]
          exact Or.inr ⟨c0, List.mem_cons_self _ _, hleg, rfl⟩
      · exact Or.inr ⟨c, List.mem_cons_of_mem _ hc, hl, hs⟩
    · rw [if_neg hleg]
      rcases ih m with h | ⟨c, hc, hl, hs⟩
      · exact Or.inl h
      · exact Or.inr ⟨c, List.mem_cons_of_mem _ hc, hl, hs⟩

theorem stepBest_illegal {g : Grid} {w : Word} {c : Cand} (a : List Cand × Int)
    (h : ¬ canPlace g w c = true) : stepBest g w a c = a := by
  rw [stepBest, if_neg h]

theorem stepBest_new {g : Grid} {w : Word} {c : Cand} (a : List Cand × Int)
    (h : canPlace g w c = true) (h2 : a.2 < candScore g w c) :
    stepBest g w a c = ([c], candScore g w c) := by
  rw [stepBest, if_pos h]
  simp only [if_pos h2]

theorem stepBest_tie {g : Grid} {w : Word} {c : Cand} (a : List Cand × Int)
    (h : canPlace g w c = true) (h2 : candScore g w c = a.2) :
    stepBest g w a c = (a.1 ++ [c], a.2) := by
  rw [stepBest, if_pos h]
  simp only [if_neg (not_lt.mpr (le_of_eq h2)), if_pos h2]

theorem stepBest_drop {g : Grid} {w : Word} {c : Cand} (a : List Cand × Int)
    (h : canPlace g w c = true) (h2 : candScore g w c < a.2) :
    stepBest g w a c = a := by
  rw [stepBest, if_pos h]
  simp only [if_neg (not_lt.mpr (le_of_lt h2)), if_neg (ne_of_lt h2)]

theorem foldl_stepBest_closed (g : Grid) (w : Word) :
    ∀ (cs : List Cand) (B : List Cand) (m : Int),
      cs.foldl (stepBest g w) (B, m) =
        ((if m < bestScoreFrom g w m cs then [] else B) ++
          cs.filter (fun c =>
            canPlace g w c && candScore g w c == bestScoreFrom g w m cs),
         bestScoreFrom g w m cs) := by
  intro cs
  induction cs with
  | nil =>
    intro B m
    simp [bestScoreFrom]
  | cons c0 cs ih =>
    intro B m
    rw [List.foldl_cons, bestScoreFrom, List.filter_cons]
    by_cases hleg : canPlace g w c0 = true
    · rw [if_pos hleg]
      rcases lt_trichotomy m (candScore g w c0) with hlt | heq | hgt
      · have hmax : max m (candScore g w c0) = candScore g w c0 := max_eq_right (le_of_lt hlt)
        rw [stepBest_new _ hleg hlt, ih, hmax]
        have hsc : candScore g w c0 ≤ bestScoreFrom g w (candScore g w c0) cs :=
          le_bestScoreFrom g w cs _
        have hM : m < bestScoreFrom g w (candScore g w c0) cs := lt_of_lt_of_le hlt hsc
        rw [if_pos hM]
        rcases lt_or_eq_of_le hsc with hlt2 | heq2
        · have h1 : ¬ ((canPlace g w c0 &&
              (candScore g w c0 == bestScoreFrom g w (candScore g w c0) cs)) = true) := by
            simp only [Bool.and_eq_true, beq_iff_eq, hleg, true_and]
            exact ne_of_lt hlt2
          rw [if_pos hlt2, if_neg h1]
        · have h1 : (canPlace g w c0 &&
              (candScore g w c0 == bestScoreFrom g w (candScore g w c0) cs)) = true := by
            simp only [Bool.and_eq_true, beq_iff_eq, hleg, true_and]
            exact heq2
          rw [if_neg (not_lt.mpr (le_of_eq heq2.symm)), if_pos h1]
          simp
      · have hmax : max m (candScore g w c0) = m := max_eq_left (le_of_eq heq.symm)
        rw [stepBest_tie _ hleg heq.symm, ih, hmax]
        by_cases hM : m < bestScoreFrom g w m cs
        · have h1 : ¬ ((canPlace g w c0 &&
              (candScore g w c0 == bestScoreFrom g w m cs)) = true) := by
            simp only [Bool.and_eq_true, beq_iff_eq, hleg, true_and]
            rw [← heq]
            exact ne_of_lt hM
          rw [if_pos hM, if_pos hM, if_neg h1]
        · have hMeq : bestScoreFrom g w m cs = m :=
            (not_lt.mp hM).antisymm (le_bestScoreFrom g w cs m)
          have h1 : (canPlace g w c0 &&
              (candScore g w c0 == bestScoreFrom g w m cs)) = true := by
            simp only [Bool.and_eq_true, beq_iff_eq, hleg, true_and]
            rw [← heq, hMeq]
          rw [if_neg hM, if_neg hM, if_pos h1]
          simp
      · have hmax : max m (candScore g w c0) = m := max_eq_left (le_of_lt hgt)
        have h1 : ¬ ((canPlace g w c0 &&
            (candScore g w c0 == bestScoreFrom g w m cs)) = true) := by
          simp only [Bool.and_eq_true, beq_iff_eq, hleg, true_and]
          exact ne_of_lt (lt_of_lt_of_le hgt (le_bestScoreFrom g w cs m))
        rw [stepBest_drop _ hleg hgt, ih, hmax, if_neg h1]
    · have h1 : ¬ ((canPlace g w c0 &&
          (candScore g w c0 == bestScoreFrom g w m cs)) = true) := by
        simp [hleg]
      rw [if_neg hleg, stepBest_illegal _ hleg, ih, if_neg h1]

theorem runBest_closed (g : Grid) (w : Word) (cs : List Cand) :
    runBest g w cs =
      (cs.filter (fun c => canPlace g w c && candScore g w c == bestScoreFrom g w (-2) cs),
       bestScoreFrom g w (-2) cs) := by
  rw [runBest, foldl_stepBest_closed, ite_self, List.nil_append]

theorem mem_runBest {g : Grid} {w : Word} {cs : List Cand} {c : Cand} :
    c ∈ (runBest g w cs).1 ↔
      c ∈ cs ∧ canPlace g w c = true ∧ candScore g w c = bestScoreFrom g w (-2) cs := by
  rw [runBest_closed]
  simp only [List.mem_filter, Bool.and_eq_true, beq_iff_eq]

theorem runBest_fst_ne_nil {g : Grid} {w : Word} {cs : List Cand} :
    (runBest g w cs).1 ≠ [] ↔
      ∃ c ∈ cs, canPlace g w c = true ∧ -2 ≤ candScore g w c := by
  constructor
  · intro h
    rcases List.exists_mem_of_ne_nil _ h with ⟨c, hc⟩
    obtain ⟨hmem, hleg, hsc⟩ := mem_runBest.mp hc
    exact ⟨c, hmem, hleg, hsc ▸ le_bestScoreFrom g w cs (-2)⟩
  · rintro ⟨c, hmem, hleg, hsc⟩ hnil
    rcases bestScoreFrom_attained g w cs (-2) with hM | ⟨c2, hc2, hl2, hs2⟩
    · have hle : candScore g w c ≤ -2 := hM ▸ score_le_bestScoreFrom g w cs (-2) c hmem hleg
      have : c ∈ (runBest g w cs).1 :=
        mem_runBest.mpr ⟨hmem, hleg, le_antisymm hle hsc |>.trans hM.symm⟩
      rw [hnil] at this
      exact absurd this (List.not_mem_nil c)
    · have : c2 ∈ (runBest g w cs).1 := mem_runBest.mpr ⟨hc2, hl2, hs2⟩
      rw [hnil] at this
      exact absurd this (List.not_mem_nil c2)

theorem getD_mem_of_lt {l : List Cand} {k : Nat} (h : k < l.length) (d : Cand) :
    l.getD k d ∈ l := by
  rw [List.getD_eq_getElem?_getD, List.getElem?_eq_getElem h, Option.getD_some]
  exact List.getElem_mem h

theorem placeWordSmart_fail_grids {g s : Grid} {w : Word} {r : Rand}
    (h : (placeWordSmart g s w r).1 = none) :
    (placeWordSmart g s w r).2.1 = g ∧ (placeWordSmart g s w r).2.2 = s := by
  rw [placeWordSmart] at h ⊢
  by_cases hlen : 0 < (runBest g w (candidatePairs r.dirs r.pos)).1.length
  · rw [if_pos hlen] at h
    simp at h
  · rw [if_neg hlen]
    exact ⟨rfl, rfl⟩

theorem placeWordSmart_none_iff {g s : Grid} {w : Word} {r : Rand} :
    (placeWordSmart g s w r).1 = none ↔
      ¬ ∃ c ∈ candidatePairs r.dirs r.pos,
        canPlace g w c = true ∧ -2 ≤ candScore g w c := by
  rw [placeWordSmart]
  constructor
  · intro h hex
    have hne := runBest_fst_ne_nil.mpr hex
    have hlen : 0 < (runBest g w (candidatePairs r.dirs r.pos)).1.length :=
      List.length_pos.mpr hne
    rw [if_pos hlen] at h
    simp at h
  · intro hex
    have hnil : (runBest g w (candidatePairs r.dirs r.pos)).1 = [] := by
      by_contra hne
      exact hex (runBest_fst_ne_nil.mp hne)
    rw [if_neg (by rw [hnil]; simp)]

theorem placeWordSmart_some {g s : Grid} {w : Word} {r : Rand} {info : PlacedWordInfo}
    (h : (placeWordSmart g s w r).1 = some info) :
    ∃ c ∈ (runBest g w (candidatePairs r.dirs r.pos)).1,
      info = mkInfo w c ∧
      (placeWordSmart g s w r).2.1 = placeWordAt g w c.row c.col c.dr c.dc ∧
      (placeWordSmart g s w r).2.2 = placeWordAt s w c.row c.col c.dr c.dc := by
  rw [placeWordSmart] at h ⊢
  by_cases hlen : 0 < (runBest g w (candidatePairs r.dirs r.pos)).1.length
  · rw [if_pos hlen] at h ⊢
    refine ⟨(runBest g w (candidatePairs r.dirs r.pos)).1.getD
      (r.pick % (runBest g w (candidatePairs r.dirs r.pos)).1.length) ((0, 0, 0, 0) : Cand),
      getD_mem_of_lt (Nat.mod_lt _ hlen) _, ?_, rfl, rfl⟩
    simpa using h.symm
  · rw [if_neg hlen] at h
    simp at h

theorem mem_candidatePairs {dirs positions : List (Int × Int)} {c : Cand} :
    c ∈ candidatePairs dirs positions ↔
      ∃ d ∈ dirs, ∃ p ∈ positions, c = (p.1, p.2, d.1, d.2) := by
  rw [candidatePairs]
  simp only [List.mem_flatten, List.mem_map]
  constructor
  · rintro ⟨l, ⟨d, hd, rfl⟩, hc⟩
    rcases List.mem_map.mp hc with ⟨p, hp, rfl⟩
    exact ⟨d, hd, p, hp, rfl⟩
  · rintro ⟨d, hd, p, hp, rfl⟩
    exact ⟨_, ⟨d, hd, rfl⟩, List.mem_map.mpr ⟨p, hp, rfl⟩⟩

theorem placeWordAt_preserve_both {size : Nat} {g s : Grid} {w : Word} {c : Cand}
    (hleg : canPlace g w c = true) {info : PlacedWordInfo}
    (hOK : infoOK size g s info) :
    infoOK size (placeWordAt g w c.row c.col c.dr c.dc)
      (placeWordAt s w c.row c.col c.dr c.dc) info := by
  refine ⟨hOK.1, fun i hi => ?_⟩
  obtain ⟨b1, b2, b3, b4, hg, hs⟩ := hOK.2 i hi
  have hdis : ∀ j < w.length,
      info.startRow + (i : Int) * info.dRow = c.row + (j : Int) * c.dr →
      info.startCol + (i : Int) * info.dCol = c.col + (j : Int) * c.dc →
      w.getD j 'A' = info.word.getD i 'A' := by
    intro j hj h1 h2
    rcases canPlaceWord_content hleg j hj with hnone | hsome
    · rw [← h1, ← h2, hg] at hnone
      exact absurd hnone (by simp)
    · rw [← h1, ← h2, hg] at hsome
      exact (Option.some_inj.mp hsome).symm
  rw [placeWordAt]
  exact ⟨b1, b2, b3, b4,
    gridGet_placeWordAtN_preserve hdis hg,
    gridGet_placeWordAtN_preserve hdis hs⟩

theorem placeWordSmart_StepOK {size : Nat} {g s : Grid} {w : Word} {r : Rand}
    (hwfg : GridWF size g) (hwfs : GridWF size s)
    (hdirs : ∀ d ∈ r.dirs, ¬(d.1 = 0 ∧ d.2 = 0)) :
    StepOK size g s (placeWordSmart g s w r).2.1 (placeWordSmart g s w r).2.2
      (placeWordSmart g s w r).1 := by
  rcases hres : (placeWordSmart g s w r).1 with _ | info0
  · obtain ⟨e1, e2⟩ := placeWordSmart_fail_grids hres
    rw [e1, e2]
    exact ⟨hwfg, hwfs, fun info h => h, fun info h => by cases h⟩
  · obtain ⟨c, hcmem, hinfo, e1, e2⟩ := placeWordSmart_some hres
    obtain ⟨hcp, hleg, _⟩ := mem_runBest.mp hcmem
    have hdir0 : ¬(c.dr = 0 ∧ c.dc = 0) := by
      obtain ⟨d, hd, p, hp, hceq⟩ := mem_candidatePairs.mp hcp
      subst hceq
      exact hdirs d hd
    have hbnd : ∀ i < w.length,
        inBounds size (c.row + (i : Int) * c.dr) (c.col + (i : Int) * c.dc) = true := by
      intro i hi
      have := canPlaceWord_inBounds hleg i hi
      rwa [hwfg.1] at this
    rw [e1, e2]
    refine ⟨?_, ?_, ?_, ?_⟩
    · rw [placeWordAt]
      exact hwfg.placeWordAtN w _ _ _ _ _
    · rw [placeWordAt]
      exact hwfs.placeWordAtN w _ _ _ _ _
    · intro info h
      exact placeWordAt_preserve_both hleg h
    · intro info h
      have hie : info = mkInfo w c := by
        rw [← Option.some_inj.mp h]
        exact hinfo
      subst hie
      refine ⟨rfl, fun i hi => ?_⟩
      have hiw : i < w.length := hi
      obtain ⟨b1, b2, b3, b4⟩ := inBounds_iff.mp (hbnd i hiw)
      refine ⟨b1, b2, b3, b4, ?_, ?_⟩
      · rw [placeWordAt]
        exact gridGet_placeWordAtN_on hwfg hdir0 hbnd i hiw
      · rw [placeWordAt]
        exact gridGet_placeWordAtN_on hwfs hdir0 hbnd i hiw

theorem placeWordLoop_cons (g s : Grid) (w : Word) (r : Rand) (rs : List Rand) :
    placeWordLoop g s w (r :: rs) =
      match placeWordSmart g s w r with
      | (some info, g1, s1) => (some info, g1, s1)
      | (none, g1, s1) => placeWordLoop g1 s1 w rs := rfl

theorem placeWordLoop_cons_some {g s : Grid} {w : Word} {r : Rand} {rs : List Rand}
    {info : PlacedWordInfo} {g1 s1 : Grid}
    (h : placeWordSmart g s w r = (some info, g1, s1)) :
    placeWordLoop g s w (r :: rs) = (some info, g1, s1) := by
  rw [placeWordLoop_cons, h]

theorem placeWordLoop_cons_none {g s : Grid} {w : Word} {r : Rand} {rs : List Rand}
    {g1 s1 : Grid} (h : placeWordSmart g s w r = (none, g1, s1)) :
    placeWordLoop g s w (r :: rs) = placeWordLoop g1 s1 w rs := by
  rw [placeWordLoop_cons, h]

theorem placeWordLoop_StepOK {size : Nat} {w : Word} :
    ∀ (rs : List Rand) (g s : Grid), GridWF size g → GridWF size s →
      (∀ r ∈ rs, ∀ d ∈ r.dirs, ¬(d.1 = 0 ∧ d.2 = 0)) →
      StepOK size g s (placeWordLoop g s w rs).2.1 (placeWordLoop g s w rs).2.2
        (placeWordLoop g s w rs).1 := by
  intro rs
  induction rs with
  | nil =>
    intro g s hwfg hwfs _
    exact ⟨hwfg, hwfs, fun info h => h, fun info h => by cases h⟩
  | cons r rs ih =>
    intro g s hwfg hwfs hdirs
    have hstep := placeWordSmart_StepOK (w := w) (r := r) hwfg hwfs
      (hdirs r (List.mem_cons_self _ _))
    rcases hps : placeWordSmart g s w r with ⟨res, g1, s1⟩
    rw [hps] at hstep
    rcases res with _ | info0
    · have hfail : (placeWordSmart g s w r).1 = none := by rw [hps]
      obtain ⟨e1, e2⟩ := placeWordSmart_fail_grids hfail
      rw [hps] at e1 e2
      simp only at e1 e2
      rw [placeWordLoop_cons_none hps, e1, e2]
      exact ih g s hwfg hwfs fun r2 h2 => hdirs r2 (List.mem_cons_of_mem _ h2)
    · rw [placeWordLoop_cons_some hps]
      exact hstep

theorem placeWords_WordsOK {size : Nat} :
    ∀ (ws : List Word) (rands : Nat → List Rand) (idx : Nat) (g s : Grid),
      GridWF size g → GridWF size s →
      (∀ j, ∀ r ∈ rands j, ∀ d ∈ r.dirs, ¬(d.1 = 0 ∧ d.2 = 0)) →
      WordsOK size g s (placeWords g s rands idx ws) := by
  intro ws
  induction ws with
  | nil =>
    intro rands idx g s hwfg hwfs _
    exact ⟨hwfg, hwfs, fun info h => h, fun info h => by cases h⟩
  | cons w ws ih =>
    intro rands idx g s hwfg hwfs hdirs
    have hstep := placeWordLoop_StepOK (w := w) (rands idx) g s hwfg hwfs
      (fun r hr => hdirs idx r hr)
    rcases hpl : placeWordLoop g s w (rands idx) with ⟨res, g1, s1⟩
    rw [hpl] at hstep
    obtain ⟨hwfg1, hwfs1, hpres, hnew⟩ := hstep
    have hrest := ih rands (idx + 1) g1 s1 hwfg1 hwfs1 hdirs
    obtain ⟨hwfg2, hwfs2, hpres2, hinfos2⟩ := hrest
    rcases res with _ | info0
    · rw [placeWords, hpl]
      exact ⟨hwfg2, hwfs2, fun info h => hpres2 info (hpres info h), hinfos2⟩
    · rw [placeWords, hpl]
      refine ⟨hwfg2, hwfs2, fun info h => hpres2 info (hpres info h), ?_⟩
      intro info h
      rcases List.mem_cons.mp h with h | h
      · subst h
        exact hpres2 info (hnew info rfl)
      · exact hinfos2 info h

theorem fill_preserve_infoOK {size : Nat} {p s : Grid} {rnd : Nat → Nat → Char}
    {info : PlacedWordInfo} (h : infoOK size p s info) :
    infoOK size (fillRemainingCells p rnd) s info := by
  refine ⟨h.1, fun i hi => ?_⟩
  obtain ⟨b1, b2, b3, b4, hg, hs⟩ := h.2 i hi
  exact ⟨b1, b2, b3, b4, gridGet_fillRemainingCells_some hg, hs⟩

theorem createWordSearch_infos {size : Nat} {words : List Word} {ar : AttemptRand}
    (hdirs : ∀ j, ∀ r ∈ ar.wordRands j, ∀ d ∈ r.dirs, ¬(d.1 = 0 ∧ d.2 = 0)) :
    ∀ info ∈ (createWordSearch words size ar).placedWordInfos,
      infoOK size (createWordSearch words size ar).grid
        (createWordSearch words size ar).solution info := by
  intro info h
  have hpw := placeWords_WordsOK (wordsByLength words) ar.wordRands 0
    (createEmptyGrid size) (createEmptyGrid size)
    (GridWF_createEmpty size) (GridWF_createEmpty size) hdirs
  rw [createWordSearch] at h ⊢
  simp only at h ⊢
  exact fill_preserve_infoOK (hpw.2.2.2 info h)

theorem getDirectionVectors_nonzero (dop : DirectionOptions) :
    ∀ d ∈ getDirectionVectors dop, ¬(d.1 = 0 ∧ d.2 = 0) := by
  obtain ⟨h, v, dg, r⟩ := dop
  cases h <;> cases v <;> cases dg <;> cases r <;> decide

theorem bestLoop_some_OK {size : Nat} {words : List Word} {ar : Nat → AttemptRand}
    (hOK : ∀ idx, ∀ info ∈ (createWordSearch words size (ar idx)).placedWordInfos,
      infoOK size (createWordSearch words size (ar idx)).grid
        (createWordSearch words size (ar idx)).solution info) :
    ∀ (n idx : Nat) (acc : Int × Option WSResult),
      (∀ res, acc.2 = some res → ∀ info ∈ res.placedWordInfos,
        infoOK size res.grid res.solution info) →
      ∀ res, (bestLoop words size ar n idx acc).2 = some res →
        ∀ info ∈ res.placedWordInfos, infoOK size res.grid res.solution info := by
  intro n
  induction n with
  | zero =>
    intro idx acc hacc res h
    exact hacc res h
  | succ m ih =>
    intro idx acc hacc res h
    rw [bestLoop] at h
    have hacc1 : ∀ r2,
        (if acc.1 < ((createWordSearch words size (ar idx)).placedWords.length : Int)
          then (((createWordSearch words size (ar idx)).placedWords.length : Int),
            some (createWordSearch words size (ar idx)))
          else acc).2 = some r2 →
        ∀ info ∈ r2.placedWordInfos, infoOK size r2.grid r2.solution info := by
      intro r2 h2
      by_cases hsel : acc.1 < ((createWordSearch words size (ar idx)).placedWords.length : Int)
      · rw [if_pos hsel] at h2
        simp only at h2
        rw [← Option.some_inj.mp h2]
        exact hOK idx
      · rw [if_neg hsel] at h2
        exact hacc r2 h2
    by_cases hbreak : (createWordSearch words size (ar idx)).failedWords.length = 0
    · rw [if_pos hbreak] at h
      exact hacc1 res h
    · rw [if_neg hbreak] at h
      exact ih (idx + 1) _ hacc1 res h

/-- C1: for every success returned by the orchestrator `createPuzzle` and
every `PlacedWordInfo` in its placed-word list, the recorded length is the
word's length and each of the `length` traversal steps from
`(startRow, startCol)` along `(dRow, dCol)` stays inside the `size`-by-`size`
grid, with both the display grid and the solution grid holding exactly the
word's letter at every traversed cell. -/
theorem C1_success_placed_infos (words : List Word) (size : Nat)
    (directions : DirectionOptions) (ar : Nat → AttemptRand)
    (hv : ∀ a j, ∀ r ∈ (ar a).wordRands j, validRand size (getDirectionVectors directions) r)
    (p s : Grid) (pw fw : List Word) (infos : List PlacedWordInfo)
    (hres : createPuzzle words size ar = .success p s pw fw infos) :
    ∀ info ∈ infos, infoOK size p s info := by
  have hdirs : ∀ a j, ∀ r ∈ (ar a).wordRands j, ∀ d ∈ r.dirs, ¬(d.1 = 0 ∧ d.2 = 0) := by
    intro a j r hr d hd
    have hperm := (hv a j r hr).1
    exact getDirectionVectors_nonzero directions d (hperm.mem_iff.mp hd)
  have hOK : ∀ idx, ∀ info ∈ (createWordSearch words size (ar idx)).placedWordInfos,
      infoOK size (createWordSearch words size (ar idx)).grid
        (createWordSearch words size (ar idx)).solution info := by
    intro idx
    exact createWordSearch_infos (hdirs idx)
  rw [createPuzzle] at hres
  rcases hbl : (bestLoop words size ar 10 0 (-1, none)).2 with _ | res
  · rw [hbl] at hres
    cases hres
  · rw [hbl] at hres
    have hresOK := bestLoop_some_OK hOK 10 0 (-1, none)
      (fun r2 h2 => by cases h2) res hbl
    injection hres with h1 h2 h3 h4 h5
    subst h1
    subst h2
    subst h5
    exact hresOK

theorem placeWordSmart_triple_of_none {g s : Grid} {w : Word} {r : Rand}
    (h : (placeWordSmart g s w r).1 = none) : placeWordSmart g s w r = (none, g, s) := by
  obtain ⟨e1, e2⟩ := placeWordSmart_fail_grids h
  have heta : placeWordSmart g s w r =
      ((placeWordSmart g s w r).1, (placeWordSmart g s w r).2.1,
        (placeWordSmart g s w r).2.2) := rfl
  rw [heta, h, e1, e2]

theorem placeWordLoop_all_fail {g s : Grid} {w : Word} :
    ∀ rs : List Rand, (∀ r2 ∈ rs, (placeWordSmart g s w r2).1 = none) →
      placeWordLoop g s w rs = (none, g, s) := by
  intro rs
  induction rs with
  | nil => intro _; rfl
  | cons r2 rs2 ih =>
    intro h
    have htrip := placeWordSmart_triple_of_none (h r2 (List.mem_cons_self _ _))
    rw [placeWordLoop_cons_none htrip]
    exact ih fun r3 h3 => h r3 (List.mem_cons_of_mem _ h3)

set_option maxRecDepth 100000
set_option maxHeartbeats 4000000

/-- Witness for C1: a one-word puzzle on a 2-by-2 grid with deterministic
randomness; the hypotheses of `C1_success_placed_infos` are discharged at
this input and the invariant holds for the single placed word. -/
theorem C1_success_placed_infos_witness :
    (∀ a j, ∀ r ∈ ((fun _ : Nat => constAttemptN 1000 2 [((0 : Int), (1 : Int))]) a).wordRands j,
      validRand 2 (getDirectionVectors ⟨true, false, false, false⟩) r) ∧
    createPuzzle [['A']] 2 (fun _ : Nat => constAttemptN 1000 2 [((0 : Int), (1 : Int))]) =
      .success [[some 'A', some 'X'], [some 'X', some 'X']] [[some 'A', none], [none, none]]
        [['A']] [] [⟨['A'], 0, 0, 0, 1, 1⟩] ∧
    (∀ info ∈ [(⟨['A'], 0, 0, 0, 1, 1⟩ : PlacedWordInfo)],
      infoOK 2 [[some 'A', some 'X'], [some 'X', some 'X']]
        [[some 'A', none], [none, none]] info) := by
  have h1 : ∀ a j, ∀ r ∈ ((fun _ : Nat => constAttemptN 1000 2 [((0 : Int), (1 : Int))]) a).wordRands j,
      validRand 2 (getDirectionVectors ⟨true, false, false, false⟩) r := by
    intro a j r hr
    rw [List.eq_of_mem_replicate hr]
    exact ⟨List.Perm.refl _, List.Perm.refl _⟩
  have h2 : createPuzzle [['A']] 2 (fun _ : Nat => constAttemptN 1000 2 [((0 : Int), (1 : Int))]) =
      .success [[some 'A', some 'X'], [some 'X', some 'X']] [[some 'A', none], [none, none]]
        [['A']] [] [⟨['A'], 0, 0, 0, 1, 1⟩] := by decide
  exact ⟨h1, h2,
    C1_success_placed_infos [['A']] 2 ⟨true, false, false, false⟩ _ h1 _ _ _ _ _ h2⟩

/-- C2: the word-placement search does NOT satisfy the claimed contract.  On
the 2-by-2 grid holding only an `A` at `(0,0)`, the word `B` has legal
placements (for instance start `(0,1)` with vector `(0,1)`), yet
`placeWordSmart` reports failure: every legal candidate scores below the
`bestScore = -1` sentinel (doubled to `-2` in the doubled-score
representation), so none is ever recorded.  The non-mutation half of the
claim does hold: on failure both grids are returned untouched. -/
theorem C2_fails_despite_legal_candidate :
    canPlaceWord [[some 'A', none], [none, none]] ['B'] 0 1 0 1 = true ∧
    (placeWordSmart [[some 'A', none], [none, none]] [[none, none], [none, none]] ['B']
      ⟨[((0 : Int), (1 : Int))], allPositions 2, 0⟩).1 = none ∧
    (placeWordSmart [[some 'A', none], [none, none]] [[none, none], [none, none]] ['B']
      ⟨[((0 : Int), (1 : Int))], allPositions 2, 0⟩).2.1 =
      [[some 'A', none], [none, none]] ∧
    (placeWordSmart [[some 'A', none], [none, none]] [[none, none], [none, none]] ['B']
      ⟨[((0 : Int), (1 : Int))], allPositions 2, 0⟩).2.2 =
      [[none, none], [none, none]] := by decide

/-- C7: the orchestrator does NOT report a hard failure when the best attempt
placed zero words.  With the single word `AAAA` on a 2-by-2 grid (horizontal
only), no attempt can place anything, yet `createPuzzle` returns a success
whose placed-word list is empty: the failure branch is guarded by "no
attempt was retained" rather than "zero words were placed", and the first
attempt is always retained. -/
theorem C7_empty_success_instead_of_failure :
    createPuzzle [['A', 'A', 'A', 'A']] 2
        (fun _ : Nat => constAttemptN 1000 2 [((0 : Int), (1 : Int))]) =
      .success [[some 'X', some 'X'], [some 'X', some 'X']] [[none, none], [none, none]]
        [] [['A', 'A', 'A', 'A']] [] := by decide

theorem candidatePairs_nodup {dirs positions : List (Int × Int)}
    (hd : dirs.Nodup) (hp : positions.Nodup) : (candidatePairs dirs positions).Nodup := by
  rw [candidatePairs, List.nodup_flatten]
  constructor
  · intro l hl
    rcases List.mem_map.mp hl with ⟨d, _, rfl⟩
    refine hp.map ?_
    intro p q hpq
    have hpq2 : ((p.1, p.2, d.1, d.2) : Cand) = (q.1, q.2, d.1, d.2) := hpq
    simp only [Prod.mk.injEq] at hpq2
    exact Prod.ext hpq2.1 hpq2.2.1
  · refine List.Pairwise.map _ ?_ hd
    intro d1 d2 hne x hx1 hx2
    rcases List.mem_map.mp hx1 with ⟨p1, _, rfl⟩
    rcases List.mem_map.mp hx2 with ⟨p2, _, heq⟩
    have heq2 : ((p2.1, p2.2, d2.1, d2.2) : Cand) = (p1.1, p1.2, d1.1, d1.2) := heq
    simp only [Prod.mk.injEq] at heq2
    exact hne (Prod.ext heq2.2.2.1.symm heq2.2.2.2.symm)

theorem exists_unique_index_of_nodup {l : List Cand} (h : l.Nodup) {c : Cand} (hc : c ∈ l) :
    ∃! k : Nat, k < l.length ∧ l.getD k ((0, 0, 0, 0) : Cand) = c := by
  rcases List.mem_iff_getElem.mp hc with ⟨j, hj, hgetj⟩
  refine ⟨j, ⟨hj, ?_⟩, ?_⟩
  · rw [List.getD_eq_getElem?_getD, List.getElem?_eq_getElem hj, Option.getD_some, hgetj]
  · rintro k ⟨hk, hgetk⟩
    rw [List.getD_eq_getElem?_getD, List.getElem?_eq_getElem hk, Option.getD_some] at hgetk
    exact h.getElem_inj_iff.mp (hgetk.trans hgetj.symm)

/-- C5 (counterexample to the claim as stated): on the 2-by-2 grid holding an
`A` at `(0,0)`, legal candidates for the word `B` exist — `(1,0)` with vector
`(0,1)` is one — yet `placeWordSmart` commits nothing at all, so in
particular it does not commit a maximum-score candidate. -/
theorem C5_counterexample :
    canPlaceWord [[some 'A', none], [none, none]] ['B'] 1 0 0 1 = true ∧
    (placeWordSmart [[some 'A', none], [none, none]] [[none, none], [none, none]] ['B']
      ⟨[((0 : Int), (1 : Int))], allPositions 2, 1⟩).1 = none := by decide

/-- C5 (amended): whenever at least one legal candidate reaches the search's
initial sentinel (score at least `-1`, i.e. `-2` in the doubled-score
representation), `placeWordSmart` commits the candidate drawn by the
tie-break index from the `best` list, that candidate is a legal candidate of
maximum score among all legal candidates, the `best` list consists exactly of
the legal candidates attaining that maximum, and each of them is hit by
exactly one of the `best.length` equally likely tie-break draws (uniform
selection among the maximizers). -/
theorem C5_max_score_uniform_tiebreak (g s : Grid) (w : Word) (r : Rand)
    (hd : r.dirs.Nodup) (hp : r.pos.Nodup)
    (hex : ∃ c ∈ candidatePairs r.dirs r.pos,
      canPlace g w c = true ∧ -2 ≤ candScore g w c) :
    ∃ c0 : Cand,
      (placeWordSmart g s w r).1 = some (mkInfo w c0) ∧
      c0 = (runBest g w (candidatePairs r.dirs r.pos)).1.getD
        (r.pick % (runBest g w (candidatePairs r.dirs r.pos)).1.length) ((0, 0, 0, 0) : Cand) ∧
      c0 ∈ candidatePairs r.dirs r.pos ∧ canPlace g w c0 = true ∧
      (∀ c ∈ candidatePairs r.dirs r.pos, canPlace g w c = true →
        candScore g w c ≤ candScore g w c0) ∧
      (∀ c : Cand, c ∈ (runBest g w (candidatePairs r.dirs r.pos)).1 ↔
        (c ∈ candidatePairs r.dirs r.pos ∧ canPlace g w c = true ∧
          candScore g w c = candScore g w c0)) ∧
      (∀ c ∈ (runBest g w (candidatePairs r.dirs r.pos)).1,
        ∃! k : Nat, k < (runBest g w (candidatePairs r.dirs r.pos)).1.length ∧
          (runBest g w (candidatePairs r.dirs r.pos)).1.getD k ((0, 0, 0, 0) : Cand) = c) := by
  have hne : (runBest g w (candidatePairs r.dirs r.pos)).1 ≠ [] := runBest_fst_ne_nil.mpr hex
  have hlen : 0 < (runBest g w (candidatePairs r.dirs r.pos)).1.length :=
    List.length_pos.mpr hne
  have hc0mem : (runBest g w (candidatePairs r.dirs r.pos)).1.getD
      (r.pick % (runBest g w (candidatePairs r.dirs r.pos)).1.length) ((0, 0, 0, 0) : Cand)
        ∈ (runBest g w (candidatePairs r.dirs r.pos)).1 :=
    getD_mem_of_lt (Nat.mod_lt _ hlen) _
  obtain ⟨hc0cp, hc0leg, hc0sc⟩ := mem_runBest.mp hc0mem
  have hBnodup : (runBest g w (candidatePairs r.dirs r.pos)).1.Nodup := by
    rw [runBest_closed]
    exact (candidatePairs_nodup hd hp).filter _
  refine ⟨_, ?_, rfl, hc0cp, hc0leg, ?_, ?_, ?_⟩
  · rw [placeWordSmart, if_pos hlen]
  · intro c hcm hcl
    rw [hc0sc]
    exact score_le_bestScoreFrom g w _ (-2) c hcm hcl
  · intro c
    rw [mem_runBest, hc0sc]
  · intro c hcB
    exact exists_unique_index_of_nodup hBnodup hcB

/-- Witness for C5 (amended): the empty 2-by-2 grid and the word `A`, where
every cell is a legal candidate of score `0`. -/
theorem C5_max_score_uniform_tiebreak_witness :
    ((([((0 : Int), (1 : Int))] : List (Int × Int)).Nodup) ∧
     (allPositions 2).Nodup ∧
     (∃ c ∈ candidatePairs [((0 : Int), (1 : Int))] (allPositions 2),
       canPlace (createEmptyGrid 2) ['A'] c = true ∧
         -2 ≤ candScore (createEmptyGrid 2) ['A'] c)) ∧
    (∃ c0 : Cand,
      (placeWordSmart (createEmptyGrid 2) (createEmptyGrid 2) ['A']
        ⟨[((0 : Int), (1 : Int))], allPositions 2, 0⟩).1 = some (mkInfo ['A'] c0) ∧
      c0 = (runBest (createEmptyGrid 2) ['A']
          (candidatePairs [((0 : Int), (1 : Int))] (allPositions 2))).1.getD
        (0 % (runBest (createEmptyGrid 2) ['A']
          (candidatePairs [((0 : Int), (1 : Int))] (allPositions 2))).1.length)
        ((0, 0, 0, 0) : Cand) ∧
      c0 ∈ candidatePairs [((0 : Int), (1 : Int))] (allPositions 2) ∧
      canPlace (createEmptyGrid 2) ['A'] c0 = true ∧
      (∀ c ∈ candidatePairs [((0 : Int), (1 : Int))] (allPositions 2),
        canPlace (createEmptyGrid 2) ['A'] c = true →
          candScore (createEmptyGrid 2) ['A'] c ≤ candScore (createEmptyGrid 2) ['A'] c0) ∧
      (∀ c : Cand, c ∈ (runBest (createEmptyGrid 2) ['A']
          (candidatePairs [((0 : Int), (1 : Int))] (allPositions 2))).1 ↔
        (c ∈ candidatePairs [((0 : Int), (1 : Int))] (allPositions 2) ∧
          canPlace (createEmptyGrid 2) ['A'] c = true ∧
          candScore (createEmptyGrid 2) ['A'] c = candScore (createEmptyGrid 2) ['A'] c0)) ∧
      (∀ c ∈ (runBest (createEmptyGrid 2) ['A']
          (candidatePairs [((0 : Int), (1 : Int))] (allPositions 2))).1,
        ∃! k : Nat, k < (runBest (createEmptyGrid 2) ['A']
            (candidatePairs [((0 : Int), (1 : Int))] (allPositions 2))).1.length ∧
          (runBest (createEmptyGrid 2) ['A']
            (candidatePairs [((0 : Int), (1 : Int))] (allPositions 2))).1.getD k
              ((0, 0, 0, 0) : Cand) = c)) := by
  have hd : (([((0 : Int), (1 : Int))] : List (Int × Int))).Nodup := by decide
  have hp : (allPositions 2).Nodup := by decide
  have hex : ∃ c ∈ candidatePairs [((0 : Int), (1 : Int))] (allPositions 2),
      canPlace (createEmptyGrid 2) ['A'] c = true ∧
        -2 ≤ candScore (createEmptyGrid 2) ['A'] c := by decide
  exact ⟨⟨hd, hp, hex⟩,
    C5_max_score_uniform_tiebreak (createEmptyGrid 2) (createEmptyGrid 2) ['A']
      ⟨[((0 : Int), (1 : Int))], allPositions 2, 0⟩ hd hp hex⟩

theorem exists_candidate_perm {dirs1 pos1 dirs2 pos2 : List (Int × Int)}
    (hdp : dirs1.Perm dirs2) (hpp : pos1.Perm pos2) (P : Cand → Prop) :
    (∃ c ∈ candidatePairs dirs1 pos1, P c) ↔ (∃ c ∈ candidatePairs dirs2 pos2, P c) := by
  constructor
  · rintro ⟨c, hc, hP⟩
    obtain ⟨d, hd, p, hp, rfl⟩ := mem_candidatePairs.mp hc
    exact ⟨_, mem_candidatePairs.mpr ⟨d, hdp.mem_iff.mp hd, p, hpp.mem_iff.mp hp, rfl⟩, hP⟩
  · rintro ⟨c, hc, hP⟩
    obtain ⟨d, hd, p, hp, rfl⟩ := mem_candidatePairs.mp hc
    exact ⟨_, mem_candidatePairs.mpr ⟨d, hdp.mem_iff.mpr hd, p, hpp.mem_iff.mpr hp, rfl⟩, hP⟩

theorem placeWordSmart_none_perm {g s1 s2 : Grid} {w : Word} {r1 r2 : Rand}
    (hdp : r1.dirs.Perm r2.dirs) (hpp : r1.pos.Perm r2.pos)
    (h : (placeWordSmart g s1 w r1).1 = none) : (placeWordSmart g s2 w r2).1 = none := by
  rw [placeWordSmart_none_iff] at h ⊢
  intro hex
  exact h ((exists_candidate_perm hdp hpp _).mpr hex)

/-- C10: the success-or-failure outcome of one placement-search call depends
only on the grid contents, the word and the candidate set (the direction and
position lists up to permutation), never on the injected randomness; and the
inner per-word retry loop is equivalent to its first invocation — if the
first call fails, the grid is unchanged and every retry fails as well. -/
theorem C10_outcome_ignores_randomness (g s : Grid) (w : Word) :
    (∀ r1 r2 : Rand, r1.dirs.Perm r2.dirs → r1.pos.Perm r2.pos →
      (placeWordSmart g s w r1).1.isSome = (placeWordSmart g s w r2).1.isSome) ∧
    (∀ (r : Rand) (rs : List Rand),
      (∀ r2 ∈ rs, r2.dirs.Perm r.dirs ∧ r2.pos.Perm r.pos) →
      placeWordLoop g s w (r :: rs) = placeWordSmart g s w r) := by
  constructor
  · intro r1 r2 hdp hpp
    by_cases h1 : (placeWordSmart g s w r1).1 = none
    · rw [h1, placeWordSmart_none_perm hdp hpp h1]
    · have h2 : ¬ (placeWordSmart g s w r2).1 = none := fun h2 =>
        h1 (placeWordSmart_none_perm hdp.symm hpp.symm h2)
      have h1s := Option.ne_none_iff_isSome.mp h1
      have h2s := Option.ne_none_iff_isSome.mp h2
      rw [h1s, h2s]
  · intro r rs hperm
    rcases hps : placeWordSmart g s w r with ⟨res, g1, s1⟩
    rcases res with _ | info0
    · have hfail : (placeWordSmart g s w r).1 = none := by rw [hps]
      have htrip := placeWordSmart_triple_of_none hfail
      have hgs := hps.symm.trans htrip
      simp only [Prod.mk.injEq, true_and] at hgs
      rw [placeWordLoop_cons_none htrip, hgs.1, hgs.2]
      exact placeWordLoop_all_fail rs fun r2 h2 =>
        placeWordSmart_none_perm (hperm r2 h2).1.symm (hperm r2 h2).2.symm hfail
    · rw [placeWordLoop_cons_some hps]

/-- Witness for C10: the empty 2-by-2 grid and word `A`, with two different
permutations of the same direction/position lists and a two-retry loop. -/
theorem C10_outcome_ignores_randomness_witness :
    (([((0 : Int), (1 : Int))] : List (Int × Int)).Perm [((0 : Int), (1 : Int))] ∧
     (allPositions 2).Perm ((allPositions 2).reverse) ∧
     (∀ r2 ∈ [(⟨[((0 : Int), (1 : Int))], (allPositions 2).reverse, 3⟩ : Rand)],
       r2.dirs.Perm [((0 : Int), (1 : Int))] ∧ r2.pos.Perm (allPositions 2))) ∧
    (placeWordSmart (createEmptyGrid 2) (createEmptyGrid 2) ['A']
        ⟨[((0 : Int), (1 : Int))], allPositions 2, 0⟩).1.isSome =
      (placeWordSmart (createEmptyGrid 2) (createEmptyGrid 2) ['A']
        ⟨[((0 : Int), (1 : Int))], (allPositions 2).reverse, 3⟩).1.isSome ∧
    placeWordLoop (createEmptyGrid 2) (createEmptyGrid 2) ['A']
        [⟨[((0 : Int), (1 : Int))], allPositions 2, 0⟩,
         ⟨[((0 : Int), (1 : Int))], (allPositions 2).reverse, 3⟩] =
      placeWordSmart (createEmptyGrid 2) (createEmptyGrid 2) ['A']
        ⟨[((0 : Int), (1 : Int))], allPositions 2, 0⟩ := by
  have hperm1 : (([((0 : Int), (1 : Int))] : List (Int × Int))).Perm
      [((0 : Int), (1 : Int))] := List.Perm.refl _
  have hperm2 : (allPositions 2).Perm ((allPositions 2).reverse) :=
    (List.reverse_perm _).symm
  have hlist : ∀ r2 ∈ [(⟨[((0 : Int), (1 : Int))], (allPositions 2).reverse, 3⟩ : Rand)],
      r2.dirs.Perm [((0 : Int), (1 : Int))] ∧ r2.pos.Perm (allPositions 2) := by
    intro r2 h2
    rw [List.mem_singleton.mp h2]
    exact ⟨List.Perm.refl _, List.reverse_perm _⟩
  exact ⟨⟨hperm1, hperm2, hlist⟩,
    (C10_outcome_ignores_randomness (createEmptyGrid 2) (createEmptyGrid 2) ['A']).1
      ⟨[((0 : Int), (1 : Int))], allPositions 2, 0⟩
      ⟨[((0 : Int), (1 : Int))], (allPositions 2).reverse, 3⟩ hperm1 hperm2,
    (C10_outcome_ignores_randomness (createEmptyGrid 2) (createEmptyGrid 2) ['A']).2
      ⟨[((0 : Int), (1 : Int))], allPositions 2, 0⟩
      [⟨[((0 : Int), (1 : Int))], (allPositions 2).reverse, 3⟩] hlist⟩

theorem neighbor_check_eq (row col : Int) (off : Int × Int) :
    ((row + off.1 != row) || (col + off.2 != col)) = !(off == ((0 : Int), (0 : Int))) := by
  rcases off with ⟨o1, o2⟩
  apply Bool.eq_iff_iff.mpr
  simp only [Bool.or_eq_true, bne_iff_ne, ne_eq, Bool.not_eq_true', beq_eq_false_iff_ne,
    Prod.mk.injEq, not_and]
  omega

/-- C6 (counterexample to the claim as stated): for a legal candidate — the
word `AB` overlapping the existing `A` at `(0,1)` of a 3-by-3 grid — the
source's spacing score penalizes the already-filled cell `(0,1)` when
scoring the neighboring footprint cell `(0,2)`, although `(0,1)` is part of
the word's own footprint; the spec-worded penalty (whole footprint excluded)
differs. -/
theorem C6_counterexample :
    canPlaceWord [[none, some 'A', none], [none, none, none], [none, none, none]]
      ['A', 'B'] 0 1 0 1 = true ∧
    calculateSpacingScore [[none, some 'A', none], [none, none, none], [none, none, none]]
        ['A', 'B'] 0 1 0 1 ≠
      spacingScoreSpec [[none, some 'A', none], [none, none, none], [none, none, none]]
        ['A', 'B'] 0 1 0 1 := by decide

/-- C6 (amended): the candidate score combines the overlap count with a
positive weight and the spacing score with a positive weight (weights
depending on grid density), and the spacing score is exactly minus the
number of (occupied cell, neighbor) pairs whose in-bounds neighbor is
already filled, where only the occupied cell itself is excluded from its own
8-neighborhood — other cells of the word's footprint are not excluded. -/
theorem C6_score_combination (g : Grid) (w : Word) (c : Cand) :
    calculateSpacingScore g w c.row c.col c.dr c.dc =
      -(crowdedNeighborCount g w c.row c.col c.dr c.dc : Int) ∧
    ∃ wo ws : Int, 0 < wo ∧ 0 < ws ∧
      candScore g w c =
        wo * (countOverlap g w c.row c.col c.dr c.dc : Int) +
        ws * calculateSpacingScore g w c.row c.col c.dr c.dc := by
  constructor
  · rw [calculateSpacingScore, crowdedNeighborCount, Nat.cast_list_sum, List.map_map]
    congr 1
    congr 1
    apply List.map_congr_left
    intro i _
    simp only [Function.comp_apply]
    norm_cast
    congr 1
    apply List.filter_congr
    intro off _
    rw [← neighbor_check_eq (c.row + (i : Int) * c.dr) (c.col + (i : Int) * c.dc) off]
  · rw [candScore]
    by_cases h1 : 10 * countFilledCells g < 3 * (g.length * g.length)
    · rw [if_pos h1]
      exact ⟨2, 4, by norm_num, by norm_num, by ring⟩
    · rw [if_neg h1]
      by_cases h2 : 10 * countFilledCells g < 6 * (g.length * g.length)
      · rw [if_pos h2]
        exact ⟨3, 2, by norm_num, by norm_num, by ring⟩
      · rw [if_neg h2]
        exact ⟨4, 1, by norm_num, by norm_num, by ring⟩

/-- C8: within every generation attempt the words are attempted in
non-increasing order of length: `wordsByLength` (the list `createWordSearch`
iterates over) is a permutation of the input in which every earlier word is
at least as long as every later one. -/
theorem C8_longest_first (words : List Word) :
    (wordsByLength words).Perm words ∧
    (wordsByLength words).Pairwise fun a b => b.length ≤ a.length := by
  constructor
  · exact List.perm_insertionSort _ words
  · haveI : IsTotal Word fun a b => b.length ≤ a.length :=
      ⟨fun a b => Nat.le_total b.length a.length⟩
    haveI : IsTrans Word fun a b => b.length ≤ a.length :=
      ⟨fun a b c hab hbc => le_trans hbc hab⟩
    exact List.sorted_insertionSort _ words

/-- C9: the overlay geometry is a pure function of the placement record and
the cell size; for every placed word and positive cell size the capsule
length is the Euclidean distance between the first and last cell centers
plus twice the fixed extension `0.7 * cellSize`, and the capsule width is
`0.7 * cellSize`; for the word placed at `(0,0)` with vector `(0,1)`, length
`4` and unit cell size, the rotation angle is `0` degrees and the capsule
center is the midpoint between the first and last cell centers. -/
theorem C9_capsule_geometry :
    (∀ (info : PlacedWordInfo) (cellSize : ℝ), 0 < cellSize →
      (capsuleOverlay info cellSize).capsuleLength =
        euclidDist (cellCenter info.startRow info.startCol cellSize)
          (cellCenter (info.startRow + ((info.length : Int) - 1) * info.dRow)
            (info.startCol + ((info.length : Int) - 1) * info.dCol) cellSize) +
          2 * (cellSize * (7 / 10)) ∧
      (capsuleOverlay info cellSize).capsuleWidth = cellSize * (7 / 10)) ∧
    ((capsuleOverlay ⟨['W', 'O', 'R', 'D'], 0, 0, 0, 1, 4⟩ 1).angle = 0 ∧
     (capsuleOverlay ⟨['W', 'O', 'R', 'D'], 0, 0, 0, 1, 4⟩ 1).cx =
       ((cellCenter 0 0 1).1 + (cellCenter 0 3 1).1) / 2 ∧
     (capsuleOverlay ⟨['W', 'O', 'R', 'D'], 0, 0, 0, 1, 4⟩ 1).cy =
       ((cellCenter 0 0 1).2 + (cellCenter 0 3 1).2) / 2) := by
  constructor
  · intro info cellSize hcs
    constructor
    · simp only [capsuleOverlay, euclidDist, cellCenter]
      ring_nf
    · simp only [capsuleOverlay]
  · refine ⟨?_, ?_, ?_⟩
    · simp only [capsuleOverlay, atan2]
      norm_num
    · simp only [capsuleOverlay, cellCenter]
      norm_num
    · simp only [capsuleOverlay, cellCenter]
      norm_num

/-- Witness for C9: the general capsule-length/width law instantiated at the
four-letter demo placement with unit cell size. -/
theorem C9_capsule_geometry_witness :
    0 < (1 : ℝ) ∧
    ((capsuleOverlay ⟨['W', 'O', 'R', 'D'], 0, 0, 0, 1, 4⟩ 1).capsuleLength =
      euclidDist (cellCenter (0 : Int) (0 : Int) 1)
        (cellCenter ((0 : Int) + (((4 : Nat) : Int) - 1) * 0)
          ((0 : Int) + (((4 : Nat) : Int) - 1) * 1) 1) + 2 * ((1 : ℝ) * (7 / 10)) ∧
     (capsuleOverlay ⟨['W', 'O', 'R', 'D'], 0, 0, 0, 1, 4⟩ 1).capsuleWidth =
       (1 : ℝ) * (7 / 10)) :=
  ⟨by norm_num,
    C9_capsule_geometry.1 ⟨['W', 'O', 'R', 'D'], 0, 0, 0, 1, 4⟩ 1 (by norm_num)⟩

/-- Witness for C4: with no axis flag set (reverse alone), the resolver
returns the empty set, by the theorem's second conjunct. -/
theorem C4_direction_vectors_witness :
    getDirectionVectors ⟨false, false, false, true⟩ = [] :=
  (C4_direction_vectors ⟨false, false, false, true⟩).2 rfl rfl rfl

end WordSearch
